import Mathlib

/-!
Shallow embedding of the two scripts of this repository
(`tracer_to_real_code.py` and `dump_code.py`) together with proofs about
the behaviour their specification describes.  Python strings are modelled
as `String`/`List Char`, dictionaries as association lists, filesystem
effects as explicit event lists, and raised exceptions as `Except`.
-/

namespace LcovSpec

/-! ### Python string primitives -/

/-- ASCII whitespace: the characters stripped by Python `str.strip()` and
matched by the regex class `\s` (for ASCII input). -/
def pyIsSpace (c : Char) : Bool :=
  c == ' ' || c == '\t' || c == '\n' || c == '\r' || c == '\x0b' || c == '\x0c'

/-- `str.strip()` on the character list. -/
def pyStripChars (cs : List Char) : List Char :=
  ((cs.dropWhile pyIsSpace).reverse.dropWhile pyIsSpace).reverse

/-- Python `s.strip()`. -/
def pyStrip (s : String) : String :=
  String.mk (pyStripChars s.data)

/-- Python `s.startswith('/')`. -/
def startsWith_slash (s : String) : Bool :=
  s.data.head? == some '/'

/-- Python `s.endswith('/')`. -/
def endsWith_slash (s : String) : Bool :=
  s.data.getLast? == some '/'

/-- Python substring test `pat in s`. -/
def containsSub (pat : List Char) : List Char → Bool
  | [] => pat.isEmpty
  | c :: cs => pat.isPrefixOf (c :: cs) || containsSub pat cs

/-- Fueled worker for Python `str.replace`: replace the non-overlapping
occurrences of `pat`, scanning left to right.  `fuel` bounds the number of
steps; `fuel = s.length` is always enough. -/
def replaceCharsAux (pat repl : List Char) : Nat → List Char → List Char
  | 0, s => s
  | _ + 1, [] => []
  | fuel + 1, c :: cs =>
    if !pat.isEmpty && pat.isPrefixOf (c :: cs) then
      repl ++ replaceCharsAux pat repl fuel ((c :: cs).drop pat.length)
    else
      c :: replaceCharsAux pat repl fuel cs

/-- Python `str.replace` on character lists (for a non-empty pattern, or an
empty pattern with empty replacement — the only shapes the scripts use). -/
def replaceChars (pat repl s : List Char) : List Char :=
  replaceCharsAux pat repl s.length s

/-- Python `s.replace(pat, repl)`. -/
def pyReplace (s pat repl : String) : String :=
  String.mk (replaceChars pat.data repl.data s.data)

/-- Index of the first occurrence of `pat` in `s` (`s.find(pat)` when it is
non-negative). -/
def findOcc (pat : List Char) : List Char → Option Nat
  | [] => if pat = [] then some 0 else none
  | c :: cs =>
    if pat.isPrefixOf (c :: cs) then some 0
    else (findOcc pat cs).map (· + 1)

/-- Fueled replace-every-occurrence, structured by first occurrences: a
specification-side restatement of `str.replace` used to characterise the
code's behaviour independently of its scan. -/
def specReplaceAllAux (pat repl : List Char) : Nat → List Char → List Char
  | 0, s => s
  | fuel + 1, s =>
    match findOcc pat s with
    | none => s
    | some i => s.take i ++ repl ++ specReplaceAllAux pat repl fuel (s.drop (i + pat.length))

/-- Replace every (non-overlapping, left-to-right) occurrence of `pat` by
`repl`, expressed through first-occurrence recursion. -/
def specReplaceAll (pat repl s : List Char) : List Char :=
  specReplaceAllAux pat repl s.length s

/-- Remove the *first* occurrence of `pat` from `s` (the operation the
spec's path-rewriting sentence describes). -/
def spec_remove_first (s pat : String) : String :=
  match findOcc pat.data s.data with
  | none => s
  | some i => String.mk (s.data.take i ++ s.data.drop (i + pat.data.length))

/-- `int(s)` for a string of decimal digits. -/
def digitsToNat (cs : List Char) : Nat :=
  cs.foldl (fun n c => n * 10 + (c.toNat - '0'.toNat)) 0

/-- Python `int(s)` on the digit strings produced by the trace parser. -/
def pyInt (s : String) : Nat :=
  digitsToNat s.data

/-! ### The trace-log parser (`extract_info_from_file`) -/

/-- One parsed record of a trace-log line `path(lineno): code`. -/
structure TraceRecord where
  path : String
  lineno : String
  code : String
deriving DecidableEq

/-- Match the tail `\(\d+\):\s.*` of the record regex at the head of `cs`,
returning the captured line number and code.  `\d+` is a maximal digit run
(shrinking it can never make the following `\)` match), `\s` is one
whitespace character and `.*` greedily takes everything up to a newline. -/
def matchTail : List Char → Option (String × String)
  | '(' :: rest =>
    let ds := rest.takeWhile Char.isDigit
    if ds = [] then none
    else
      match rest.dropWhile Char.isDigit with
      | ')' :: ':' :: c :: rest2 =>
        if pyIsSpace c then
          some (String.mk ds, String.mk (rest2.takeWhile (· != '\n')))
        else none
      | _ => none
  | _ => none

/-- Leftmost match of `(?P<path>.*?)\((?P<lineno>\d+)\):\s(?P<code>.*)`:
scan for the first position where the tail pattern matches; the non-greedy
`.*?` path capture is everything since the last newline before it. -/
def scanMatch : List Char → List Char → Option TraceRecord
  | _, [] => none
  | acc, c :: cs =>
    match matchTail (c :: cs) with
    | some (ln, cd) => some ⟨String.mk acc.reverse, ln, cd⟩
    | none => scanMatch (if c == '\n' then [] else c :: acc) cs

/-- All records `re.finditer` yields on one line of the log.  A match's
final `.*` consumes the rest of the line, so one line yields at most one
record. -/
def lineRecords (line : String) : List TraceRecord :=
  (scanMatch [] line.data).toList

/-- The records accumulated over the whole file, in scan order. -/
def extract_records (lines : List String) : List TraceRecord :=
  lines.flatMap lineRecords

/-- `result[p]` after the accumulation loop of `extract_info_from_file`:
the `(lineno, code)` pairs of the records whose path is `p`, in order. -/
def result_pairs (lines : List String) (p : String) : List (String × String) :=
  ((extract_records lines).filter (fun r => r.path = p)).map (fun r => (r.lineno, r.code))

/-- Comparison used by `sorted(set(...), key=lambda x: int(x[0]))`. -/
def traceLE (a b : String × String) : Prop :=
  pyInt a.1 ≤ pyInt b.1

instance : DecidableRel traceLE :=
  fun a b => Nat.decLe (pyInt a.1) (pyInt b.1)

instance : IsTotal (String × String) traceLE :=
  ⟨fun a b => Nat.le_total (pyInt a.1) (pyInt b.1)⟩

instance : IsTrans (String × String) traceLE :=
  ⟨fun _ _ _ h h' => Nat.le_trans h h'⟩

/-- `extract_info_from_file`, per path: deduplicate (`set(...)`) and sort by
the line number as an integer (`sorted(..., key=lambda x: int(x[0]))`).
Python's set-iteration order is arbitrary; the properties proved below are
independent of it. -/
def extract_info_from_file (lines : List String) (p : String) : List (String × String) :=
  List.insertionSort traceLE (result_pairs lines p).dedup

/-! ### The coverage-HTML line extractor (`dump_code.py`) -/

/-- A sibling node of a `lineNum` marker, as far as `get_code_line`
distinguishes them: a `span` element (with the string contents of its text
nodes), a `br` element, or a bare text node. -/
inductive HNode where
  | span (strings : List String)
  | br
  | text (s : String)
deriving DecidableEq

/-- The Python exceptions the extractor can raise. -/
inductive PyErr where
  | indexError
  | typeError
deriving DecidableEq

/-- The characters after the first `':'`, if any. -/
def afterFirstColon : List Char → Option (List Char)
  | [] => none
  | c :: rest => if c = ':' then some rest else afterFirstColon rest

/-- `s.split(':', 1)[1][1:]`: everything after the first colon with one
further character dropped; `IndexError` when `s` has no colon. -/
def colonSplitTail (s : String) : Except PyErr String :=
  match afterFirstColon s.data with
  | none => .error .indexError
  | some rest => .ok (String.mk (rest.drop 1))

/-- `element.get_text(strip=True)`: each contained string stripped,
whitespace-only strings dropped, remainder concatenated. -/
def get_text_strip (strings : List String) : String :=
  String.join (((strings.map pyStrip).filter (fun s => s ≠ "")))

/-- `str(node)` for the nodes the `br` loop of `get_code_line` can pass
through (it stops at any `span` before converting it). -/
def strOf : HNode → String
  | .span ss => "<span class=\"lineNum\">" ++ String.join ss ++ "</span>"
  | .br => "<br/>"
  | .text s => s

/-- The `while next_sibling is not None and next_sibling.name != 'span'`
accumulation loop of the `br` branch of `get_code_line`. -/
def brConcat : List HNode → String
  | [] => ""
  | .span _ :: _ => ""
  | n :: ns => strOf n ++ brConcat ns

/-- `get_code_line`, applied to the chain of siblings that follows a
`lineNum` marker (empty chain = the sibling is `None`, which Python
returns unchanged). -/
def get_code_line : List HNode → Except PyErr (Option String)
  | [] => .ok none
  | .span ss :: _ => (colonSplitTail (get_text_strip ss)).map some
  | .br :: rest => (colonSplitTail (pyStrip (brConcat rest))).map some
  | .text s :: _ => (colonSplitTail (pyStrip s)).map some

/-- The first loop of `extract_code_from_html`: collect `get_code_line` of
every marker, stopping at the first raised exception. -/
def collectLines : List (List HNode) → Except PyErr (List (Option String))
  | [] => .ok []
  | m :: ms =>
    match get_code_line m with
    | .error e => .error e
    | .ok c =>
      match collectLines ms with
      | .error e => .error e
      | .ok rest => .ok (c :: rest)

/-- The writing loop `for line in code_lines: f.write(line + '\n')`: a
`None` entry raises `TypeError` (`None + '\n'`). -/
def write_lines : List (Option String) → Except PyErr String
  | [] => .ok ""
  | some s :: rest => (write_lines rest).map (fun t => s ++ "\n" ++ t)
  | none :: _ => .error .typeError

/-- `extract_code_from_html(file, target)`: returns the collected lines and
the text written to the target file, or the first exception raised. -/
def extract_code_from_html (doc : List (List HNode)) :
    Except PyErr (List (Option String) × String) :=
  match collectLines doc with
  | .error e => .error e
  | .ok code_lines =>
    match write_lines code_lines with
    | .error e => .error e
    | .ok content => .ok (code_lines, content)

/-- Does the string contain a colon? -/
def hasColon (s : String) : Bool :=
  s.data.contains ':'

/-- The marker's sibling text, for the kind-specific text `get_code_line`
splits on, contains no colon. -/
def siblingTextNoColon : List HNode → Bool
  | [] => false
  | .span ss :: _ => !(hasColon (get_text_strip ss))
  | .br :: rest => !(hasColon (pyStrip (brConcat rest)))
  | .text s :: _ => !(hasColon (pyStrip s))

/-- The code line the extractor produces for a simple `span` sibling with
text `t`: strip, then take everything one character past the first colon. -/
def strippedColonTail (t : String) : String :=
  String.mk (((afterFirstColon (pyStrip t).data).getD []).drop 1)

/-- The file content written for a run in which every marker yields
`strippedColonTail` of its sibling text. -/
def c2Content : List String → String
  | [] => ""
  | t :: ts => strippedColonTail t ++ "\n" ++ c2Content ts

/-- The extraction rule exactly as claim C2 words it (no whitespace
stripping): the sibling's text with everything up to and including the
first colon plus one further character removed. -/
def specC2Rule (s : String) : Option String :=
  (afterFirstColon s.data).map (fun rest => String.mk (rest.drop 1))

/-! ### The highlighted-HTML renderer (`convert_to_html`) -/

/-- `html.escape` on one character (default `quote=True`). -/
def html_escape_char (c : Char) : String :=
  if c = '&' then "&amp;"
  else if c = '<' then "&lt;"
  else if c = '>' then "&gt;"
  else if c = '"' then "&quot;"
  else if c = '\x27' then "&#x27;"
  else String.mk [c]

/-- Python `html.escape`. -/
def html_escape (s : String) : String :=
  String.join (s.data.map html_escape_char)

/-- Python `str.rjust(w)` (space padding). -/
def rjust (s : String) (w : Nat) : String :=
  String.mk (List.replicate (w - s.length) ' ') ++ s

/-- The fixed prefix of the generated document, around the pygments style
sheet `style_defs` (an input of the model: the scripts take it from the
installed pygments version, and it contains no run-dependent element). -/
def convert_header (style_defs : String) : String :=
  "\n        <html>\n        <head>\n            <style>\n                " ++
  style_defs ++
  "\n                pre \x7b white-space: pre; \x7d\n            </style>\n        </head>\n        <body>\n        <table class=\"highlighttable\">\n        "

/-- The line-number cell: blue styling exactly when `str(i)` is in the
highlight list. -/
def line_number_html (hl : List String) (w i : Nat) : String :=
  (if hl.contains (toString i) then
    "<td class=\"linenos\" style=\"width: 60px; padding-left: 1px;color: blue;\" data-value=\"" ++
      toString i ++ "\">"
  else
    "<td class=\"linenos\" style=\"width: 60px; padding-left: 1px;\" data-value=\"" ++
      toString i ++ "\">") ++
  rjust (toString i) w ++ "</td>"

/-- The code cell: `highlight` class and blue styling exactly when
`str(i)` is in the highlight list; the line is HTML-escaped. -/
def code_cell_html (hl : List String) (i : Nat) (line : String) : String :=
  if hl.contains (toString i) then
    "<td class=\"highlight\" style=\"white-space: pre;color: blue;\">" ++
      html_escape line ++ "</td>"
  else
    "<td style=\"white-space: pre;\">" ++ html_escape line ++ "</td>"

/-- One `<tr>` of the generated table. -/
def row_html (hl : List String) (w i : Nat) (line : String) : String :=
  "<tr><td>" ++ line_number_html hl w i ++ "</td>" ++ code_cell_html hl i line ++ "</tr>"

/-- The fully highlighted row (blue styling in both cells), written out. -/
def hl_row (w i : Nat) (line : String) : String :=
  "<tr><td>" ++
    ("<td class=\"linenos\" style=\"width: 60px; padding-left: 1px;color: blue;\" data-value=\"" ++
      toString i ++ "\">" ++ rjust (toString i) w ++ "</td>") ++
  "</td>" ++
    ("<td class=\"highlight\" style=\"white-space: pre;color: blue;\">" ++
      html_escape line ++ "</td>") ++
  "</tr>"

/-- The unhighlighted row (no blue styling in either cell), written out. -/
def plain_row (w i : Nat) (line : String) : String :=
  "<tr><td>" ++
    ("<td class=\"linenos\" style=\"width: 60px; padding-left: 1px;\" data-value=\"" ++
      toString i ++ "\">" ++ rjust (toString i) w ++ "</td>") ++
  "</td>" ++
    ("<td style=\"white-space: pre;\">" ++ html_escape line ++ "</td>") ++
  "</tr>"

/-- `convert_to_html`: `code_lines` are the lines of the input file (with
their newline characters, as `readlines` yields them), `hl` the
highlighted line numbers as strings.  The loop appending one row per line
is the join over `enumerate(code_lines, start=1)`. -/
def convert_to_html (style_defs : String) (code_lines : List String) (hl : List String) : String :=
  convert_header style_defs ++
    String.join ((code_lines.enumFrom 1).map (fun p => row_html hl ((toString code_lines.length).length) p.1 p.2)) ++
  "</table></body></html>"

/-! ### The trace materializer (`create_files_and_write_info`) -/

/-- A filesystem effect performed by the materializer. -/
inductive FSEvent where
  | makedirs (dir : String)
  | writeFile (path content : String)
deriving DecidableEq

/-- `posixpath.join` for two components. -/
def os_path_join (a b : String) : String :=
  if startsWith_slash b then b
  else if a = "" then b
  else if endsWith_slash a then a ++ b
  else a ++ "/" ++ b

/-- Strip trailing `'/'` characters (`str.rstrip('/')`). -/
def rstripSlash (l : List Char) : List Char :=
  (l.reverse.dropWhile (fun c => c == '/')).reverse

/-- `posixpath.dirname`: everything up to the last `'/'`, with trailing
slashes stripped unless the head is all slashes. -/
def os_path_dirname (s : String) : String :=
  let head := (s.data.reverse.dropWhile (fun c => c != '/')).reverse
  if head = [] then ""
  else if head.all (fun c => c == '/') then String.mk head
  else String.mk (rstripSlash head)

/-- The contribution of the joined-on component `fd` to
`os_path_dirname (x ++ "/" ++ String.mk fd)`: the separator plus `fd`'s
prefix up to its last separator, right-stripped of slashes. -/
def dirTail (fd : List Char) : List Char :=
  rstripSlash ('/' :: (fd.reverse.dropWhile (fun c => c != '/')).reverse)

/-- The path rewriting of `create_files_and_write_info`:
`fpath = path.replace(relative_path, "")`, and then — note the source uses
`path`, not `fpath`, on the right-hand side —
`if fpath.startswith('/'): fpath = path[1:]`. -/
def rewrite_fpath (path relative_path : String) : String :=
  let fpath := pyReplace path relative_path ""
  if startsWith_slash fpath then String.mk (path.data.drop 1) else fpath

/-- The `for linenos in info_list: yellow_lines.append(linenos[0])` loop. -/
def yellow_lines_of (info_list : List (String × String)) : List String :=
  info_list.foldl (fun acc r => acc ++ [r.1]) []

/-- `create_files_and_write_info(result_map, relative_path)`:
`read_lines` models reading a source file's lines, `current_dir` is
`os.path.dirname(os.path.abspath(__file__))`.  Paths not containing the
filter are skipped; for each retained path directories are created for the
target path under `current_dir`, and `convert_to_html` writes to
`fpath + ".html"` (a path resolved against the working directory, not the
created target). -/
def create_files_and_write_info (style_defs : String) (read_lines : String → List String)
    (current_dir : String) (result_map : List (String × List (String × String)))
    (relative_path : String) : List FSEvent :=
  result_map.flatMap (fun e =>
    if containsSub relative_path.data e.1.data then
      [FSEvent.makedirs (os_path_dirname (os_path_join current_dir (rewrite_fpath e.1 relative_path))),
       FSEvent.writeFile (rewrite_fpath e.1 relative_path ++ ".html")
         (convert_to_html style_defs (read_lines e.1) (yellow_lines_of e.2))]
    else [])

/-- The target path whose parent directories the materializer creates. -/
def created_target (current_dir fpath : String) : String :=
  os_path_join current_dir fpath

/-- The written HTML file's path, resolved against the working directory
`wd` of the process. -/
def written_file_abs (wd fpath : String) : String :=
  os_path_join wd (fpath ++ ".html")

/-- The path rewriting exactly as claim C4 words it: remove the *first*
occurrence of the filter, and drop the leading separator of *that result*
when it has one. -/
def specC4_rewrite (path rel : String) : String :=
  let f := spec_remove_first path rel
  if startsWith_slash f then String.mk (f.data.drop 1) else f

/-- The rewriting as amended: every occurrence of the filter is removed
(first-occurrence recursion), and when that result starts with `'/'` the
rewritten string is instead the original path with its first character
dropped. -/
def specC4_amended_rewrite (path rel : String) : String :=
  let f := String.mk (specReplaceAll rel.data [] path.data)
  if startsWith_slash f then String.mk (path.data.drop 1) else f

/-! ### The extractor driver (`process_html_files`) -/

/-- The target path computed for one coverage-report file:
`source_file_path.replace(source_folder, target_folder).replace(".gcov.html", "")`. -/
def dump_target_path (source_folder target_folder source_file_path : String) : String :=
  pyReplace (pyReplace source_file_path source_folder target_folder) ".gcov.html" ""

/-- The target path exactly as claim C8 words it: the source root
*prefix* substituted by the target root, and the extension *suffix*
stripped. -/
def specC8_target (sf tf path : String) : Option String :=
  if sf.data.isPrefixOf path.data && ".gcov.html".data.isSuffixOf path.data then
    some (tf ++ String.mk
      ((path.data.drop sf.data.length).take
        ((path.data.drop sf.data.length).length - ".gcov.html".data.length)))
  else none

/-- `process_html_files(source_folder, target_folder)` over the walked
files (`files` maps each found path to its parsed document): filter on
the `.gcov.html` suffix, create the target's directory, extract. -/
def process_html_files (source_folder target_folder : String) :
    List (String × List (List HNode)) → Except PyErr (List FSEvent)
  | [] => .ok []
  | (p, doc) :: rest =>
    if ".gcov.html".data.isSuffixOf p.data then
      match extract_code_from_html doc with
      | .error e => .error e
      | .ok r =>
        match process_html_files source_folder target_folder rest with
        | .error e => .error e
        | .ok evs =>
          .ok (FSEvent.makedirs (os_path_dirname (dump_target_path source_folder target_folder p)) ::
            FSEvent.writeFile (dump_target_path source_folder target_folder p) r.2 :: evs)
    else process_html_files source_folder target_folder rest

/-! ### Theorems for claim C1 -/

/-- C1: for every trace log, the parser's result maps each path to the
duplicate-free set of its `(lineno, code)` pairs (line numbers kept as
strings), sorted ascending by the line number read as an integer; exact
duplicates collapse, and the given concrete example evaluates as claimed. -/
theorem C1_parser_dedup_sort :
    (∀ lines p,
      (extract_info_from_file lines p).Sorted traceLE ∧
      (extract_info_from_file lines p).Nodup ∧
      (∀ pr, pr ∈ extract_info_from_file lines p ↔ pr ∈ result_pairs lines p)) ∧
    extract_info_from_file ["a.c(5): x", "a.c(2): y", "a.c(5): x"] "a.c" =
      [("2", "y"), ("5", "x")] := by
  constructor
  · intro lines p
    refine ⟨List.sorted_insertionSort traceLE _, ?_, ?_⟩
    · exact ((List.perm_insertionSort traceLE _).nodup_iff).mpr (List.nodup_dedup _)
    · intro pr
      rw [extract_info_from_file, (List.perm_insertionSort traceLE _).mem_iff,
        List.mem_dedup]
  · decide

/-! ### Helper lemmas about the extractor -/

theorem mem_dropWhile_of_neg {p : Char → Bool} {c : Char} (hp : p c = false) :
    ∀ {l : List Char}, c ∈ l → c ∈ l.dropWhile p := by
  intro l hl
  induction l with
  | nil => cases hl
  | cons x xs ih =>
    by_cases hx : p x = true
    · rw [List.dropWhile_cons_of_pos hx]
      rcases List.mem_cons.mp hl with h | h
      · subst h; rw [hx] at hp; cases hp
      · exact ih h
    · rw [List.dropWhile_cons_of_neg hx]
      exact hl

theorem colon_mem_pyStrip {s : String} (h : ':' ∈ s.data) : ':' ∈ (pyStrip s).data := by
  have hsp : pyIsSpace ':' = false := by decide
  unfold pyStrip pyStripChars
  exact List.mem_reverse.mpr (mem_dropWhile_of_neg hsp
    (List.mem_reverse.mpr (mem_dropWhile_of_neg hsp h)))

theorem hasColon_iff_mem {s : String} : hasColon s = true ↔ ':' ∈ s.data := by
  simp [hasColon, List.contains_iff_exists_mem_beq, beq_iff_eq]

theorem afterFirstColon_eq_none {l : List Char} (h : ':' ∉ l) :
    afterFirstColon l = none := by
  induction l with
  | nil => rfl
  | cons c cs ih =>
    have hc : ¬ c = ':' := fun hh => h (hh ▸ List.mem_cons_self c cs)
    rw [afterFirstColon, if_neg hc]
    exact ih (fun hh => h (List.mem_cons_of_mem c hh))

theorem afterFirstColon_isSome {l : List Char} (h : ':' ∈ l) :
    ∃ rest, afterFirstColon l = some rest := by
  induction l with
  | nil => cases h
  | cons c cs ih =>
    by_cases hc : c = ':'
    · subst hc
      exact ⟨cs, by rw [afterFirstColon, if_pos rfl]⟩
    · have hcs : ':' ∈ cs := by
        rcases List.mem_cons.mp h with h' | h'
        · cases hc h'.symm
        · exact h'
      rcases ih hcs with ⟨rest, hrest⟩
      exact ⟨rest, by rw [afterFirstColon, if_neg hc]; exact hrest⟩

theorem colonSplitTail_error {s : String} {e : PyErr} (h : colonSplitTail s = .error e) :
    e = PyErr.indexError := by
  unfold colonSplitTail at h
  rcases hA : afterFirstColon s.data with _ | rest
  · rw [hA] at h; cases h; rfl
  · rw [hA] at h; cases h

theorem get_code_line_error {m : List HNode} {e : PyErr}
    (h : get_code_line m = .error e) : e = PyErr.indexError := by
  have aux : ∀ (s : String), (colonSplitTail s).map some = Except.error e →
      e = PyErr.indexError := by
    intro s hs
    rcases hc : colonSplitTail s with e' | v
    · rw [hc] at hs; cases hs; exact colonSplitTail_error hc
    · rw [hc] at hs; cases hs
  match m with
  | [] => cases h
  | .span ss :: _ => exact aux _ h
  | .br :: rest => exact aux _ h
  | .text s :: _ => exact aux _ h

theorem get_code_line_of_noColon {m : List HNode} (h : siblingTextNoColon m = true) :
    get_code_line m = .error PyErr.indexError := by
  have aux : ∀ (s : String), hasColon s = false →
      (colonSplitTail s).map some = Except.error PyErr.indexError := by
    intro s hs
    have : ':' ∉ s.data := fun hm => by
      rw [hasColon_iff_mem.mpr hm] at hs; cases hs
    unfold colonSplitTail
    rw [afterFirstColon_eq_none this]
    rfl
  match m with
  | [] => cases h
  | .span ss :: _ =>
    exact aux _ (by simpa [siblingTextNoColon] using h)
  | .br :: rest =>
    exact aux _ (by simpa [siblingTextNoColon] using h)
  | .text s :: _ =>
    exact aux _ (by simpa [siblingTextNoColon] using h)

theorem collectLines_error {doc : List (List HNode)} {m : List HNode}
    (hm : m ∈ doc) (he : get_code_line m = .error PyErr.indexError) :
    collectLines doc = .error PyErr.indexError := by
  induction doc with
  | nil => cases hm
  | cons m' ms ih =>
    rcases hg : get_code_line m' with e | c
    · have : e = PyErr.indexError := get_code_line_error hg
      subst this
      unfold collectLines; rw [hg]
    · rcases List.mem_cons.mp hm with h | h
      · subst h; rw [hg] at he; cases he
      · unfold collectLines
        rw [hg, ih h]

theorem collectLines_ok_mem {doc : List (List HNode)} {ls : List (Option String)}
    {m : List HNode} (h1 : collectLines doc = .ok ls) (hm : m ∈ doc) :
    ∃ c, get_code_line m = .ok c ∧ c ∈ ls := by
  induction doc generalizing ls with
  | nil => cases hm
  | cons m' ms ih =>
    rcases hg : get_code_line m' with e | c
    · unfold collectLines at h1; rw [hg] at h1; cases h1
    · rcases hr : collectLines ms with e | rest
      · unfold collectLines at h1; rw [hg, hr] at h1; cases h1
      · unfold collectLines at h1; rw [hg, hr] at h1
        cases h1
        rcases List.mem_cons.mp hm with h | h
        · subst h; exact ⟨c, hg, List.mem_cons_self _ _⟩
        · rcases ih hr h with ⟨c', hc', hmem⟩
          exact ⟨c', hc', List.mem_cons_of_mem _ hmem⟩

theorem write_lines_none {ls : List (Option String)} (h : none ∈ ls) :
    write_lines ls = .error PyErr.typeError := by
  induction ls with
  | nil => cases h
  | cons x rest ih =>
    match x with
    | none => rfl
    | some s =>
      rcases List.mem_cons.mp h with h' | h'
      · cases h'
      · unfold write_lines
        rw [ih h']
        rfl

theorem write_lines_map_some (ts : List String) :
    write_lines (ts.map (fun t => some (strippedColonTail t))) = .ok (c2Content ts) := by
  induction ts with
  | nil => rfl
  | cons t ts' ih =>
    simp only [List.map_cons]
    unfold write_lines
    rw [ih]
    rfl

theorem get_code_line_span_colon {t : String} (h : hasColon t = true) :
    get_code_line [HNode.span [t]] = .ok (some (strippedColonTail t)) := by
  have hmem : ':' ∈ (pyStrip t).data := colon_mem_pyStrip (hasColon_iff_mem.mp h)
  have hne : pyStrip t ≠ "" := by
    intro hh
    rw [hh] at hmem
    cases hmem
  have htext : get_text_strip [t] = pyStrip t := by
    unfold get_text_strip
    simp [hne, String.join]
  rcases afterFirstColon_isSome hmem with ⟨rest, hrest⟩
  show (colonSplitTail (get_text_strip [t])).map some = _
  rw [htext]
  unfold colonSplitTail
  rw [hrest]
  unfold strippedColonTail
  rw [hrest]
  rfl

/-! ### Theorems for claim C2 -/

/-- C2 counterexample: for the sibling text `"1: x "` (trailing blank) the
code strips the text first and extracts `"x"`, while the claim's rule
(everything up to and including the first colon plus one character
removed, no stripping) predicts `"x "`. -/
theorem C2_counterexample :
    extract_code_from_html [[HNode.span ["1: x "]]] = .ok ([some "x"], "x\n") ∧
    specC2Rule "1: x " = some "x " ∧ some ("x" : String) ≠ some ("x " : String) :=
  ⟨rfl, rfl, by decide⟩

/-- C2 amended: when every marker's next sibling is a simple inline text
node (a `span` with one text child) containing a colon, the extractor
returns exactly one string per marker, in document order, each equal to
the sibling's text *stripped of leading and trailing whitespace* with
everything up to and including the first colon plus one further character
removed; the run succeeds and writes those lines. -/
theorem C2_span_extraction (ts : List String) (h : ∀ t ∈ ts, hasColon t = true) :
    extract_code_from_html (ts.map (fun t => [HNode.span [t]])) =
      .ok (ts.map (fun t => some (strippedColonTail t)), c2Content ts) := by
  have hcollect : collectLines (ts.map (fun t => [HNode.span [t]])) =
      .ok (ts.map (fun t => some (strippedColonTail t))) := by
    induction ts with
    | nil => rfl
    | cons t ts' ih =>
      have ht := h t (List.mem_cons_self _ _)
      have hts' := ih (fun u hu => h u (List.mem_cons_of_mem _ hu))
      simp only [List.map_cons]
      unfold collectLines
      rw [get_code_line_span_colon ht, hts']
  simp only [extract_code_from_html, hcollect, write_lines_map_some ts]

/-- Witness for C2's amended theorem at the spec's own example: sibling
text `"  12:  return 0;"` yields extracted line `" return 0;"`. -/
theorem C2_span_extraction_witness :
    extract_code_from_html [[HNode.span ["  12:  return 0;"]]] =
      .ok ([some " return 0;"], " return 0;\n") :=
  C2_span_extraction ["  12:  return 0;"] (by decide)

/-! ### Theorems for claim C5 -/

/-- C5 counterexample: a document whose last marker has no next sibling.
The extraction run does not complete without failing: the collected `None`
entry makes the write loop raise `TypeError` (`None + '\n'`). -/
theorem C5_counterexample :
    extract_code_from_html [[HNode.span ["1: a"]], []] = .error PyErr.typeError :=
  rfl

/-- C5 amended: for a marker whose next sibling is absent, `get_code_line`
does emit a null entry without raising, but if the collection loop
completes, the run then fails with a `TypeError` when the collected lines
are written to the output file. -/
theorem C5_missing_sibling (doc : List (List HNode)) (ls : List (Option String))
    (h1 : collectLines doc = .ok ls) (h2 : [] ∈ doc) :
    get_code_line ([] : List HNode) = .ok none ∧
    extract_code_from_html doc = .error PyErr.typeError := by
  refine ⟨rfl, ?_⟩
  rcases collectLines_ok_mem h1 h2 with ⟨c, hc, hmem⟩
  have hcnone : c = none := by cases hc; rfl
  subst hcnone
  simp only [extract_code_from_html, h1, write_lines_none hmem]

/-- Witness for C5's amended theorem on a concrete two-marker document. -/
theorem C5_missing_sibling_witness :
    get_code_line ([] : List HNode) = .ok none ∧
    extract_code_from_html [[HNode.span ["1: a"]], []] = .error PyErr.typeError :=
  C5_missing_sibling [[HNode.span ["1: a"]], []] [some "a", none] rfl (by decide)

/-! ### Theorems for claim C6 -/

/-- C6: a marker whose sibling text contains no colon makes extraction
raise `IndexError`, which propagates out of `extract_code_from_html`; the
run produces no output for it (the whole call errors before writing). -/
theorem C6_no_colon_error (doc : List (List HNode)) (m : List HNode)
    (h1 : m ∈ doc) (h2 : siblingTextNoColon m = true) :
    get_code_line m = .error PyErr.indexError ∧
    extract_code_from_html doc = .error PyErr.indexError := by
  have hg := get_code_line_of_noColon h2
  refine ⟨hg, ?_⟩
  unfold extract_code_from_html
  rw [collectLines_error h1 hg]

/-- Witness for C6 on a concrete colon-free sibling. -/
theorem C6_no_colon_error_witness :
    get_code_line [HNode.text "no colon here"] = .error PyErr.indexError ∧
    extract_code_from_html [[HNode.text "no colon here"]] = .error PyErr.indexError :=
  C6_no_colon_error [[HNode.text "no colon here"]] [HNode.text "no colon here"]
    (by decide) (by decide)

/-! ### Helper lemmas about the renderer -/

theorem yellow_lines_of_eq_map (info : List (String × String)) :
    yellow_lines_of info = info.map Prod.fst := by
  have aux : ∀ (l : List (String × String)) (acc : List String),
      l.foldl (fun acc r => acc ++ [r.1]) acc = acc ++ l.map Prod.fst := by
    intro l
    induction l with
    | nil => intro acc; simp
    | cons x xs ih =>
      intro acc
      simp only [List.foldl_cons, List.map_cons]
      rw [ih]
      simp
  simpa using aux info []

theorem hl_row_ne_plain_row (w i : Nat) (line : String) :
    hl_row w i line ≠ plain_row w i line := by
  intro h
  have hlen := congrArg String.length h
  simp only [hl_row, plain_row, String.length_append] at hlen
  have e1 : ("<td class=\"linenos\" style=\"width: 60px; padding-left: 1px;color: blue;\" data-value=\"" : String).length = 84 := by decide
  have e2 : ("<td class=\"linenos\" style=\"width: 60px; padding-left: 1px;\" data-value=\"" : String).length = 72 := by decide
  have e3 : ("<td class=\"highlight\" style=\"white-space: pre;color: blue;\">" : String).length = 60 := by decide
  have e4 : ("<td style=\"white-space: pre;\">" : String).length = 30 := by decide
  rw [e1, e2, e3, e4] at hlen
  omega

set_option maxRecDepth 8192 in
theorem row_html_of_contains {hl : List String} {i : Nat} (w : Nat) (line : String)
    (hc : hl.contains (toString i) = true) :
    row_html hl w i line = hl_row w i line := by
  rw [row_html, line_number_html, code_cell_html, hl_row]
  rw [if_pos hc, if_pos hc]

set_option maxRecDepth 8192 in
theorem row_html_of_not_contains {hl : List String} {i : Nat} (w : Nat) (line : String)
    (hc : hl.contains (toString i) = false) :
    row_html hl w i line = plain_row w i line := by
  rw [row_html, line_number_html, code_cell_html, plain_row]
  rw [if_neg (ne_true_of_eq_false hc), if_neg (ne_true_of_eq_false hc)]

/-! ### Theorems for claim C7 -/

/-- C7: the `j`-th row of the rendered table (0-based `j`, so line number
`1 + j`) is the two-cell blue-styled row iff `str(1 + j)` is in the
highlight list, and the plain row iff it is not; and the highlight list
the materializer passes consists of exactly the line-number components of
the trace records. -/
theorem C7_highlight_iff (lines hl : List String) (j : Nat) (line : String)
    (info : List (String × String)) (h : lines[j]? = some line) :
    ((lines.enumFrom 1).map
        (fun p => row_html hl ((toString lines.length).length) p.1 p.2))[j]? =
      some (row_html hl ((toString lines.length).length) (1 + j) line) ∧
    (row_html hl ((toString lines.length).length) (1 + j) line =
        hl_row ((toString lines.length).length) (1 + j) line ↔
      hl.contains (toString (1 + j)) = true) ∧
    (row_html hl ((toString lines.length).length) (1 + j) line =
        plain_row ((toString lines.length).length) (1 + j) line ↔
      hl.contains (toString (1 + j)) = false) ∧
    yellow_lines_of info = info.map Prod.fst := by
  refine ⟨?_, ⟨?_, ?_⟩, ⟨?_, ?_⟩, yellow_lines_of_eq_map info⟩
  · rw [List.getElem?_map, List.getElem?_enumFrom, h]
    rfl
  · intro hr
    cases hcc : hl.contains (toString (1 + j)) with
    | true => rfl
    | false =>
      exact absurd ((row_html_of_not_contains _ line hcc).symm.trans hr)
        (hl_row_ne_plain_row _ _ _).symm
  · exact row_html_of_contains _ line
  · intro hr
    cases hcc : hl.contains (toString (1 + j)) with
    | false => rfl
    | true =>
      exact absurd ((row_html_of_contains _ line hcc).symm.trans hr)
        (hl_row_ne_plain_row _ _ _)
  · exact row_html_of_not_contains _ line

/-- Witness for C7 on a one-line file whose single line is highlighted. -/
theorem C7_highlight_iff_witness :
    (((["x"] : List String).enumFrom 1).map
        (fun p => row_html ["1"] ((toString (["x"] : List String).length).length) p.1 p.2))[0]? =
      some (row_html ["1"] ((toString (["x"] : List String).length).length) (1 + 0) "x") ∧
    (row_html ["1"] ((toString (["x"] : List String).length).length) (1 + 0) "x" =
        hl_row ((toString (["x"] : List String).length).length) (1 + 0) "x" ↔
      (["1"] : List String).contains (toString (1 + 0)) = true) ∧
    (row_html ["1"] ((toString (["x"] : List String).length).length) (1 + 0) "x" =
        plain_row ((toString (["x"] : List String).length).length) (1 + 0) "x" ↔
      (["1"] : List String).contains (toString (1 + 0)) = false) ∧
    yellow_lines_of [("1", "x")] = [("1", "x")].map Prod.fst :=
  C7_highlight_iff ["x"] ["1"] 0 "x" [("1", "x")] rfl

/-! ### Theorems for claim C9 -/

/-- C9: the renderer is deterministic — its output is a function of the
style sheet, the source file's lines and the highlight set alone (the
embedding has no other input: no timestamp, randomness or run-dependent
element), so two runs on equal inputs give byte-for-byte equal output. -/
theorem C9_renderer_deterministic (sd1 sd2 : String) (l1 l2 hl1 hl2 : List String)
    (hsd : sd1 = sd2) (hl : l1 = l2) (hh : hl1 = hl2) :
    convert_to_html sd1 l1 hl1 = convert_to_html sd2 l2 hl2 := by
  subst hsd
  subst hl
  subst hh
  rfl

/-- Witness for C9 at a concrete input. -/
theorem C9_renderer_deterministic_witness :
    convert_to_html "sty" ["int x;\n"] ["1"] = convert_to_html "sty" ["int x;\n"] ["1"] :=
  C9_renderer_deterministic "sty" "sty" ["int x;\n"] ["int x;\n"] ["1"] ["1"] rfl rfl rfl

/-! ### Theorems for claim C3 -/

set_option maxRecDepth 16384 in
/-- C3 counterexample: for the spec's own scenario — trace record
`("/repo/mod/file.c", "10", "int x = 1;")`, filter `"mod"` — the
materializer writes no plain-text `"10 : int x = 1;"` line anywhere: the
only write is the HTML rendering, at the filter-stripped path plus
`".html"`, while the rewritten target path only has its directory created. -/
theorem C3_counterexample :
    create_files_and_write_info "" (fun _ => ["int x = 1;\n"]) "/tool"
        [("/repo/mod/file.c", [("10", "int x = 1;")])] "mod" =
      [FSEvent.makedirs "/tool/repo/mod",
       FSEvent.writeFile "repo/mod/file.c.html"
         (convert_to_html "" ["int x = 1;\n"] ["10"])] ∧
    convert_to_html "" ["int x = 1;\n"] ["10"] ≠ "10 : int x = 1;\n" := by
  refine ⟨by decide, by decide⟩

/-- C3 amended: each retained path produces exactly two filesystem
effects: directory creation for the rewritten target under the script's
directory, and a write of the highlighted-HTML rendering of the original
source file to the filter-stripped path with `".html"` appended.  The
written content begins with a newline (the HTML preamble), not with any
`<lineno> : <code>` record line. -/
theorem C3_materializer_writes_html (sd : String) (rl : String → List String)
    (cur path rel : String) (info : List (String × String))
    (h : containsSub rel.data path.data = true) :
    create_files_and_write_info sd rl cur [(path, info)] rel =
      [FSEvent.makedirs (os_path_dirname (os_path_join cur (rewrite_fpath path rel))),
       FSEvent.writeFile (rewrite_fpath path rel ++ ".html")
         (convert_to_html sd (rl path) (yellow_lines_of info))] ∧
    (convert_to_html sd (rl path) (yellow_lines_of info)).data.take 1 = ['\n'] := by
  constructor
  · simp [create_files_and_write_info, h]
  · rw [convert_to_html, convert_header]
    simp only [String.data_append, List.append_assoc]
    rw [List.take_append_of_le_length (by decide)]
    decide

/-- Witness for C3's amended theorem at the counterexample's input. -/
theorem C3_materializer_writes_html_witness :
    create_files_and_write_info "" (fun _ => ["int x = 1;\n"]) "/tool"
        [("/repo/mod/file.c", [("10", "int x = 1;")])] "mod" =
      [FSEvent.makedirs (os_path_dirname (os_path_join "/tool"
          (rewrite_fpath "/repo/mod/file.c" "mod"))),
       FSEvent.writeFile (rewrite_fpath "/repo/mod/file.c" "mod" ++ ".html")
         (convert_to_html "" ["int x = 1;\n"]
           (yellow_lines_of [("10", "int x = 1;")]))] ∧
    (convert_to_html "" ["int x = 1;\n"]
        (yellow_lines_of [("10", "int x = 1;")])).data.take 1 = ['\n'] :=
  C3_materializer_writes_html "" (fun _ => ["int x = 1;\n"]) "/tool"
    "/repo/mod/file.c" "mod" [("10", "int x = 1;")] (by decide)

/-! ### Theorems for claim C4 -/

/-- C4 counterexample: `path.replace(relative_path, "")` removes *every*
occurrence (`"xmodymodz"` with filter `"mod"` becomes `"xyz"`, not the
claimed `"xymodz"`), and when the result starts with `'/'` the code takes
`path[1:]` — the original path minus its first character — not the
replaced result minus its separator (`"/mod/f.c"` with filter `"mod"`
becomes `"mod/f.c"`, not the claimed `"/f.c"`). -/
theorem C4_counterexample :
    rewrite_fpath "xmodymodz" "mod" = "xyz" ∧
    specC4_rewrite "xmodymodz" "mod" = "xymodz" ∧
    ("xyz" : String) ≠ "xymodz" ∧
    rewrite_fpath "/mod/f.c" "mod" = "mod/f.c" ∧
    specC4_rewrite "/mod/f.c" "mod" = "/f.c" ∧
    ("mod/f.c" : String) ≠ "/f.c" := by
  refine ⟨by decide, by decide, by decide, by decide, by decide, by decide⟩

/-! ### Helper lemmas about `str.replace` -/

theorem not_isEmpty_of_ne {pat : List Char} (hp : pat ≠ []) : (!pat.isEmpty) = true := by
  cases pat with
  | nil => cases hp rfl
  | cons c cs => rfl

theorem data_ne_nil_of_ne {s : String} (h : s ≠ "") : s.data ≠ [] := by
  intro hh
  exact h (String.ext (by rw [hh]))

theorem findOcc_nil_of_ne {pat : List Char} (hp : pat ≠ []) : findOcc pat [] = none := by
  rw [findOcc, if_neg hp]

theorem findOcc_cons_pos {pat : List Char} {c : Char} {cs : List Char}
    (h : pat.isPrefixOf (c :: cs) = true) : findOcc pat (c :: cs) = some 0 := by
  rw [findOcc, if_pos h]

theorem findOcc_cons_neg {pat : List Char} {c : Char} {cs : List Char}
    (h : pat.isPrefixOf (c :: cs) = false) :
    findOcc pat (c :: cs) = (findOcc pat cs).map (· + 1) := by
  rw [findOcc, if_neg (ne_true_of_eq_false h)]

theorem specAux_succ_some {pat repl s : List Char} {i fuel : Nat}
    (h : findOcc pat s = some i) :
    specReplaceAllAux pat repl (fuel + 1) s =
      s.take i ++ repl ++ specReplaceAllAux pat repl fuel (s.drop (i + pat.length)) := by
  rw [specReplaceAllAux, h]

theorem specAux_succ_none {pat repl s : List Char} {fuel : Nat}
    (h : findOcc pat s = none) :
    specReplaceAllAux pat repl (fuel + 1) s = s := by
  rw [specReplaceAllAux, h]

theorem replaceAux_cons_pos {pat repl : List Char} {c : Char} {cs : List Char} {fuel : Nat}
    (hp : pat ≠ []) (h : pat.isPrefixOf (c :: cs) = true) :
    replaceCharsAux pat repl (fuel + 1) (c :: cs) =
      repl ++ replaceCharsAux pat repl fuel ((c :: cs).drop pat.length) := by
  have hcond : (!pat.isEmpty && pat.isPrefixOf (c :: cs)) = true := by
    rw [h, not_isEmpty_of_ne hp]
    rfl
  rw [replaceCharsAux, if_pos hcond]

theorem replaceAux_cons_neg {pat repl : List Char} {c : Char} {cs : List Char} {fuel : Nat}
    (h : pat.isPrefixOf (c :: cs) = false) :
    replaceCharsAux pat repl (fuel + 1) (c :: cs) =
      c :: replaceCharsAux pat repl fuel cs := by
  have hcond : (!pat.isEmpty && pat.isPrefixOf (c :: cs)) = false := by
    rw [h, Bool.and_false]
  rw [replaceCharsAux, if_neg (ne_true_of_eq_false hcond)]

theorem replaceCharsAux_of_findOcc_none {pat repl : List Char} :
    ∀ (fuel : Nat) (s : List Char), findOcc pat s = none →
      replaceCharsAux pat repl fuel s = s := by
  intro fuel
  induction fuel with
  | zero => intro s _; rfl
  | succ f ih =>
    intro s hno
    match s with
    | [] => rfl
    | c :: cs =>
      cases hpre : pat.isPrefixOf (c :: cs) with
      | true => rw [findOcc_cons_pos hpre] at hno; cases hno
      | false =>
        rw [findOcc_cons_neg hpre] at hno
        have hcs : findOcc pat cs = none := Option.map_eq_none'.mp hno
        rw [replaceAux_cons_neg hpre, ih cs hcs]

theorem specReplaceAllAux_nil {pat repl : List Char} (hp : pat ≠ []) :
    ∀ fuel, specReplaceAllAux pat repl fuel [] = [] := by
  intro fuel
  cases fuel with
  | zero => rfl
  | succ f => exact specAux_succ_none (findOcc_nil_of_ne hp)

theorem findOcc_some_ne_nil {pat s : List Char} {i : Nat} (hp : pat ≠ [])
    (h : findOcc pat s = some i) : s ≠ [] := by
  intro hs
  rw [hs, findOcc_nil_of_ne hp] at h
  cases h

theorem specReplaceAllAux_fuel {pat repl : List Char} (hp : pat ≠ []) :
    ∀ (f1 f2 : Nat) (s : List Char), s.length ≤ f1 → s.length ≤ f2 →
      specReplaceAllAux pat repl f1 s = specReplaceAllAux pat repl f2 s := by
  have hplen : 1 ≤ pat.length := List.length_pos.mpr hp
  intro f1
  induction f1 with
  | zero =>
    intro f2 s h1 _
    have hs : s = [] := List.eq_nil_of_length_eq_zero (Nat.le_zero.mp h1)
    subst hs
    rw [specReplaceAllAux_nil hp, specReplaceAllAux_nil hp]
  | succ a ih =>
    intro f2 s h1 h2
    match s with
    | [] => rw [specReplaceAllAux_nil hp, specReplaceAllAux_nil hp]
    | c :: cs =>
      match f2, h2 with
      | b + 1, h2 =>
        cases hfo : findOcc pat (c :: cs) with
        | none => rw [specAux_succ_none hfo, specAux_succ_none hfo]
        | some i =>
          rw [specAux_succ_some hfo, specAux_succ_some hfo]
          have hlen1 : ((c :: cs).drop (i + pat.length)).length ≤ a := by
            simp only [List.length_drop, List.length_cons] at h1 ⊢
            omega
          have hlen2 : ((c :: cs).drop (i + pat.length)).length ≤ b := by
            simp only [List.length_drop, List.length_cons] at h2 ⊢
            omega
          rw [ih b _ hlen1 hlen2]

theorem replaceCharsAux_eq_specAux {pat repl : List Char} (hp : pat ≠ []) :
    ∀ (f1 f2 : Nat) (s : List Char), s.length ≤ f1 → s.length ≤ f2 →
      replaceCharsAux pat repl f1 s = specReplaceAllAux pat repl f2 s := by
  have hplen : 1 ≤ pat.length := List.length_pos.mpr hp
  intro f1
  induction f1 with
  | zero =>
    intro f2 s h1 _
    have hs : s = [] := List.eq_nil_of_length_eq_zero (Nat.le_zero.mp h1)
    subst hs
    rw [specReplaceAllAux_nil hp]
    rfl
  | succ a ih =>
    intro f2 s h1 h2
    match s with
    | [] => rw [specReplaceAllAux_nil hp]; rfl
    | c :: cs =>
      match f2, h2 with
      | b + 1, h2 =>
        simp only [List.length_cons] at h1 h2
        cases hpre : pat.isPrefixOf (c :: cs) with
        | true =>
          have hdl1 : ((c :: cs).drop pat.length).length ≤ a := by
            rw [List.length_drop]
            simp only [List.length_cons]
            omega
          have hdl2 : ((c :: cs).drop pat.length).length ≤ b := by
            rw [List.length_drop]
            simp only [List.length_cons]
            omega
          rw [replaceAux_cons_pos hp hpre, specAux_succ_some (findOcc_cons_pos hpre),
            List.take_zero, List.nil_append, Nat.zero_add, ih b _ hdl1 hdl2]
        | false =>
          rw [replaceAux_cons_neg hpre]
          cases hfo : findOcc pat cs with
          | none =>
            have hno : findOcc pat (c :: cs) = none := by
              rw [findOcc_cons_neg hpre, hfo]
              rfl
            rw [specAux_succ_none hno, replaceCharsAux_of_findOcc_none a cs hfo]
          | some j =>
            have hsome : findOcc pat (c :: cs) = some (j + 1) := by
              rw [findOcc_cons_neg hpre, hfo]
              rfl
            have hcs : cs ≠ [] := findOcc_some_ne_nil hp hfo
            have hlcs : 1 ≤ cs.length := List.length_pos.mpr hcs
            cases b with
            | zero => omega
            | succ g =>
              have hidx : j + 1 + pat.length = (j + pat.length) + 1 := by omega
              rw [specAux_succ_some hsome, List.take_succ_cons, hidx, List.drop_succ_cons]
              have ihcs : replaceCharsAux pat repl a cs =
                  specReplaceAllAux pat repl (g + 1) cs := by
                apply ih
                · omega
                · omega
              rw [ihcs, specAux_succ_some hfo]
              have hfuel : specReplaceAllAux pat repl g (cs.drop (j + pat.length)) =
                  specReplaceAllAux pat repl (g + 1) (cs.drop (j + pat.length)) := by
                apply specReplaceAllAux_fuel hp
                · simp only [List.length_drop]; omega
                · simp only [List.length_drop]; omega
              rw [hfuel, List.append_assoc, List.append_assoc, List.cons_append]

theorem replaceChars_eq_specReplaceAll {pat : List Char} (hp : pat ≠ [])
    (repl s : List Char) :
    replaceChars pat repl s = specReplaceAll pat repl s :=
  replaceCharsAux_eq_specAux hp s.length s.length s (Nat.le_refl _) (Nat.le_refl _)

/-- C4 amended: the rewriting removes *every* occurrence of the filter
(characterised by first-occurrence recursion), and when that result starts
with a separator the rewritten string is instead the *original path* with
its first character dropped; the output path is the rewritten string
joined onto the script's directory. -/
theorem C4_path_rewriting (path rel cur : String) (h : rel ≠ "") :
    rewrite_fpath path rel = specC4_amended_rewrite path rel ∧
    created_target cur (rewrite_fpath path rel) =
      os_path_join cur (specC4_amended_rewrite path rel) := by
  have hd : rel.data ≠ [] := data_ne_nil_of_ne h
  have heq : pyReplace path rel "" = String.mk (specReplaceAll rel.data [] path.data) := by
    unfold pyReplace
    rw [replaceChars_eq_specReplaceAll hd]
  have h1 : rewrite_fpath path rel = specC4_amended_rewrite path rel := by
    unfold rewrite_fpath specC4_amended_rewrite
    rw [heq]
  exact ⟨h1, by rw [created_target, h1]⟩

/-- Witness for C4's amended theorem at the counterexample's second input. -/
theorem C4_path_rewriting_witness :
    rewrite_fpath "/mod/f.c" "mod" = specC4_amended_rewrite "/mod/f.c" "mod" ∧
    created_target "/tool" (rewrite_fpath "/mod/f.c" "mod") =
      os_path_join "/tool" (specC4_amended_rewrite "/mod/f.c" "mod") :=
  C4_path_rewriting "/mod/f.c" "mod" "/tool" (by decide)

/-! ### Theorems for claim C8 -/

set_option maxRecDepth 16384 in
/-- C8 counterexample: `str.replace` substitutes *every* occurrence of the
source root string, not just the leading prefix: a file under a
subdirectory that repeats the root name is rewritten in both places,
while the claim's prefix-substitution rule only rewrites the first. -/
theorem C8_counterexample :
    dump_target_path "preprocess_result" "preprocess_code"
        "preprocess_result/preprocess_result/f.gcov.html" =
      "preprocess_code/preprocess_code/f" ∧
    specC8_target "preprocess_result" "preprocess_code"
        "preprocess_result/preprocess_result/f.gcov.html" =
      some "preprocess_code/preprocess_result/f" ∧
    ("preprocess_code/preprocess_code/f" : String) ≠
      "preprocess_code/preprocess_result/f" := by
  refine ⟨by decide, by decide, by decide⟩

/-- C8 amended: the target path substitutes *every* occurrence of the
source root string by the target root and removes *every* occurrence of
the `.gcov.html` extension string (both characterised by first-occurrence
recursion); for each walked file with that suffix whose extraction
succeeds, the driver creates the target's directory and writes there. -/
theorem C8_target_path (sf tf path : String) (doc : List (List HNode))
    (r : List (Option String) × String)
    (h1 : sf ≠ "") (h2 : extract_code_from_html doc = .ok r)
    (h3 : ".gcov.html".data.isSuffixOf path.data = true) :
    dump_target_path sf tf path =
      String.mk (specReplaceAll (".gcov.html".data) []
        (specReplaceAll sf.data tf.data path.data)) ∧
    process_html_files sf tf [(path, doc)] =
      .ok [FSEvent.makedirs (os_path_dirname (dump_target_path sf tf path)),
        FSEvent.writeFile (dump_target_path sf tf path) r.2] := by
  have hsf : sf.data ≠ [] := data_ne_nil_of_ne h1
  have hgcov : (".gcov.html".data : List Char) ≠ [] := by decide
  constructor
  · show String.mk (replaceChars (".gcov.html".data) ("".data)
        (String.mk (replaceChars sf.data tf.data path.data)).data) = _
    rw [replaceChars_eq_specReplaceAll hsf]
    rw [replaceChars_eq_specReplaceAll hgcov]
  · rw [process_html_files, if_pos h3, h2, process_html_files]

/-- Witness for C8's amended theorem on a one-file walk. -/
theorem C8_target_path_witness :
    dump_target_path "preprocess_result" "preprocess_code"
        "preprocess_result/a/b.gcov.html" =
      String.mk (specReplaceAll (".gcov.html".data) []
        (specReplaceAll ("preprocess_result".data) ("preprocess_code".data)
          ("preprocess_result/a/b.gcov.html".data))) ∧
    process_html_files "preprocess_result" "preprocess_code"
        [("preprocess_result/a/b.gcov.html", [[HNode.span ["1: a"]]])] =
      .ok [FSEvent.makedirs (os_path_dirname (dump_target_path "preprocess_result"
          "preprocess_code" "preprocess_result/a/b.gcov.html")),
        FSEvent.writeFile (dump_target_path "preprocess_result" "preprocess_code"
          "preprocess_result/a/b.gcov.html") ([some "a"], "a\n").2] :=
  C8_target_path "preprocess_result" "preprocess_code" "preprocess_result/a/b.gcov.html"
    [[HNode.span ["1: a"]]] ([some "a"], "a\n") (by decide) rfl (by decide)

/-! ### Helper lemmas about paths for claim C10 -/

theorem dropWhile_append_of_all {p : Char → Bool} {a b : List Char}
    (h : ∀ c ∈ a, p c = true) :
    (a ++ b).dropWhile p = b.dropWhile p := by
  induction a with
  | nil => rfl
  | cons x xs ih =>
    rw [List.cons_append, List.dropWhile_cons_of_pos (h x (List.mem_cons_self _ _))]
    exact ih (fun c hc => h c (List.mem_cons_of_mem _ hc))

theorem dropWhile_append_of_ne_nil {p : Char → Bool} {a b : List Char}
    (h : a.dropWhile p ≠ []) :
    (a ++ b).dropWhile p = a.dropWhile p ++ b := by
  rw [List.dropWhile_append, if_neg (fun hh => h (List.isEmpty_iff.mp hh))]

theorem rstripSlash_append {a t : List Char} (h : a.getLast? ≠ some '/') :
    rstripSlash (a ++ t) = a ++ rstripSlash t := by
  unfold rstripSlash
  rw [List.reverse_append]
  by_cases ht : t.reverse.dropWhile (fun c => c == '/') = []
  · rw [dropWhile_append_of_all (List.dropWhile_eq_nil_iff.mp ht), ht]
    have haa : a.reverse.dropWhile (fun c => c == '/') = a.reverse := by
      cases han : a.reverse with
      | nil => rfl
      | cons c rest =>
        have hc : a.getLast? = some c := by
          rw [← List.head?_reverse, han]
          rfl
        have hcf : (c == '/') = false := by
          cases hcc : c == '/' with
          | false => rfl
          | true =>
            rw [eq_of_beq hcc] at hc
            exact absurd hc h
        simp only [List.dropWhile_cons, hcf, Bool.false_eq_true, if_false]
    rw [haa, List.reverse_reverse]
    simp
  · rw [dropWhile_append_of_ne_nil ht, List.reverse_append, List.reverse_reverse]

theorem dropWhile_rev_head (x fd : List Char) :
    (fd.reverse ++ ('/' :: x.reverse)).dropWhile (fun c => c != '/') =
      (fd.reverse.dropWhile (fun c => c != '/')) ++ ('/' :: x.reverse) := by
  by_cases hD : fd.reverse.dropWhile (fun c => c != '/') = []
  · rw [dropWhile_append_of_all (List.dropWhile_eq_nil_iff.mp hD), hD, List.nil_append]
    rw [List.dropWhile_cons_of_neg (by decide)]
  · rw [dropWhile_append_of_ne_nil hD]

theorem dirname_of_concat (x : String) (fd : List Char) (hne : x.data ≠ [])
    (hlast : x.data.getLast? ≠ some '/') :
    os_path_dirname (String.mk (x.data ++ '/' :: fd)) = String.mk (x.data ++ dirTail fd) := by
  have hrev : (x.data ++ '/' :: fd).reverse = fd.reverse ++ ('/' :: x.data.reverse) := by
    rw [List.reverse_append, List.reverse_cons, List.append_assoc, List.singleton_append]
  have hhead : ((String.mk (x.data ++ '/' :: fd)).data.reverse.dropWhile
        (fun c => c != '/')).reverse =
      x.data ++ '/' :: (fd.reverse.dropWhile (fun c => c != '/')).reverse := by
    show ((x.data ++ '/' :: fd).reverse.dropWhile (fun c => c != '/')).reverse = _
    rw [hrev, dropWhile_rev_head, List.reverse_append, List.reverse_cons,
      List.reverse_reverse, List.append_assoc, List.singleton_append]
  obtain ⟨c, hgl⟩ : ∃ c, x.data.getLast? = some c := by
    cases hgl : x.data.getLast? with
    | none => exact absurd (List.getLast?_eq_none_iff.mp hgl) hne
    | some c => exact ⟨c, rfl⟩
  have hcs : c ≠ '/' := fun hh => hlast (hh ▸ hgl)
  have hmemc : c ∈ x.data := List.mem_of_mem_getLast? (Option.mem_def.mpr hgl)
  simp only [os_path_dirname]
  rw [hhead]
  have h1 : ¬(x.data ++ '/' :: (fd.reverse.dropWhile (fun c => c != '/')).reverse = []) := by
    intro hh
    exact absurd (List.append_eq_nil.mp hh).2 (by intro hq; cases hq)
  have h2 : (x.data ++ '/' :: (fd.reverse.dropWhile (fun c => c != '/')).reverse).all
      (fun c => c == '/') = false := by
    cases hall : (x.data ++ '/' :: (fd.reverse.dropWhile (fun c => c != '/')).reverse).all
        (fun c => c == '/') with
    | false => rfl
    | true =>
      have := List.all_eq_true.mp hall c (List.mem_append_left _ hmemc)
      exact absurd (eq_of_beq this) hcs
  rw [if_neg h1, if_neg (ne_true_of_eq_false h2)]
  rw [show (x.data ++ '/' :: (fd.reverse.dropWhile (fun c => c != '/')).reverse) =
      x.data ++ ('/' :: (fd.reverse.dropWhile (fun c => c != '/')).reverse) from rfl]
  rw [rstripSlash_append hlast]
  rfl

theorem dirTail_append_no_slash (fd H : List Char) (h : ∀ c ∈ H, (c != '/') = true) :
    dirTail (fd ++ H) = dirTail fd := by
  unfold dirTail
  rw [List.reverse_append, dropWhile_append_of_all (fun c hc => h c (List.mem_reverse.mp hc))]

theorem dirname_append_no_slash (f : String) (H : List Char)
    (h : ∀ c ∈ H, (c != '/') = true) :
    os_path_dirname (String.mk (f.data ++ H)) = os_path_dirname f := by
  have hh : (String.mk (f.data ++ H)).data.reverse.dropWhile (fun c => c != '/') =
      f.data.reverse.dropWhile (fun c => c != '/') := by
    show (f.data ++ H).reverse.dropWhile (fun c => c != '/') = _
    rw [List.reverse_append, dropWhile_append_of_all (fun c hc => h c (List.mem_reverse.mp hc))]
  simp only [os_path_dirname]
  rw [hh]

theorem startsWith_slash_append_false {f t : String} (hf : startsWith_slash f = false)
    (ht : startsWith_slash t = false) : startsWith_slash (f ++ t) = false := by
  unfold startsWith_slash at *
  rw [String.data_append]
  cases hfd : f.data with
  | nil => simpa using ht
  | cons c cs =>
    rw [hfd] at hf
    simpa using hf

theorem startsWith_slash_append_true {f t : String} (hf : startsWith_slash f = true) :
    startsWith_slash (f ++ t) = true := by
  unfold startsWith_slash at *
  rw [String.data_append]
  cases hfd : f.data with
  | nil => rw [hfd] at hf; cases hf
  | cons c cs =>
    rw [hfd] at hf
    simpa using hf

theorem endsWith_slash_getLast {a : String} (h : endsWith_slash a = false) :
    a.data.getLast? ≠ some '/' := by
  intro hh
  rw [endsWith_slash, hh] at h
  exact absurd h (by decide)

theorem join_std (a b : String) (hb : startsWith_slash b = false) (ha : a ≠ "")
    (hae : endsWith_slash a = false) :
    os_path_join a b = String.mk (a.data ++ '/' :: b.data) := by
  unfold os_path_join
  rw [if_neg (ne_true_of_eq_false hb), if_neg ha, if_neg (ne_true_of_eq_false hae)]
  apply String.ext
  rw [String.data_append, String.data_append, List.append_assoc]
  rfl

theorem join_decomp (a b : String) :
    ∃ A : List Char, (os_path_join a b).data = A ++ b.data ∧
      (A = [] ∨ A.getLast? = some '/') := by
  unfold os_path_join
  by_cases hb : startsWith_slash b = true
  · rw [if_pos hb]
    exact ⟨[], rfl, Or.inl rfl⟩
  · rw [if_neg hb]
    by_cases ha : a = ""
    · rw [if_pos ha]
      exact ⟨[], rfl, Or.inl rfl⟩
    · rw [if_neg ha]
      by_cases hae : endsWith_slash a = true
      · rw [if_pos hae]
        exact ⟨a.data, String.data_append _ _, Or.inr (eq_of_beq hae)⟩
      · rw [if_neg hae]
        refine ⟨a.data ++ ['/'], ?_, Or.inr ?_⟩
        · rw [String.data_append, String.data_append]
        · rw [List.getLast?_append]
          rfl

theorem created_ne_written (cur wd fpath : String) :
    created_target cur fpath ≠ written_file_abs wd fpath := by
  intro h
  obtain ⟨A, hA, hAp⟩ := join_decomp cur fpath
  obtain ⟨B, hB, hBp⟩ := join_decomp wd (fpath ++ ".html")
  have hd : A ++ fpath.data = B ++ (fpath.data ++ ".html".data) := by
    have hq := congrArg String.data h
    rw [created_target] at hq
    rw [written_file_abs] at hq
    rw [hA, hB, String.data_append] at hq
    exact hq
  have hlen := congrArg List.length hd
  simp only [List.length_append] at hlen
  have hh5 : (".html".data : List Char).length = 5 := by decide
  rw [hh5] at hlen
  rcases hAp with hA0 | hAlast
  · rw [hA0] at hlen
    simp only [List.length_nil] at hlen
    omega
  · have hBle : B.length ≤ A.length := by omega
    have hsplit : A.take B.length ++ (A.drop B.length ++ fpath.data) =
        B ++ (fpath.data ++ ".html".data) := by
      rw [← List.append_assoc, List.take_append_drop]
      exact hd
    have hinj := List.append_inj hsplit (by rw [List.length_take]; omega)
    have hcount := congrArg (List.count '/') hinj.2
    simp only [List.count_append] at hcount
    have hz : List.count '/' (".html".data : List Char) = 0 := by decide
    rw [hz] at hcount
    have hdropne : A.drop B.length ≠ [] := by
      intro hh
      have hq := congrArg List.length hh
      rw [List.length_drop] at hq
      simp only [List.length_nil] at hq
      omega
    have hlastd : (A.drop B.length).getLast? = some '/' := by
      have hq : A = A.take B.length ++ A.drop B.length := (List.take_append_drop _ _).symm
      rw [hq, List.getLast?_append] at hAlast
      cases hgl : (A.drop B.length).getLast? with
      | none => exact absurd (List.getLast?_eq_none_iff.mp hgl) hdropne
      | some c =>
        rw [hgl, Option.or_some] at hAlast
        exact hAlast
    have hmem : '/' ∈ A.drop B.length :=
      List.mem_of_mem_getLast? (Option.mem_def.mpr hlastd)
    have hpos : 0 < List.count '/' (A.drop B.length) := List.count_pos_iff.mpr hmem
    omega

theorem dirname_necessity (cur wd fpath : String)
    (h1 : cur ≠ "") (h2 : wd ≠ "") (h3 : endsWith_slash cur = false)
    (h4 : endsWith_slash wd = false) (h5 : startsWith_slash fpath = false)
    (heq : os_path_dirname (created_target cur fpath) =
      os_path_dirname (written_file_abs wd fpath)) :
    cur = wd := by
  have hfh : startsWith_slash (fpath ++ ".html") = false :=
    startsWith_slash_append_false h5 (by decide)
  have hc : cur.data ≠ [] := data_ne_nil_of_ne h1
  have hw : wd.data ≠ [] := data_ne_nil_of_ne h2
  have hclast : cur.data.getLast? ≠ some '/' := endsWith_slash_getLast h3
  have hwlast : wd.data.getLast? ≠ some '/' := endsWith_slash_getLast h4
  rw [created_target, join_std cur fpath h5 h1 h3] at heq
  rw [written_file_abs, join_std wd (fpath ++ ".html") hfh h2 h4] at heq
  rw [dirname_of_concat cur fpath.data hc hclast] at heq
  have hdata : (fpath ++ ".html").data = fpath.data ++ ".html".data :=
    String.data_append _ _
  rw [hdata, dirname_of_concat wd _ hw hwlast,
    dirTail_append_no_slash fpath.data (".html".data) (by decide)] at heq
  have hdd : cur.data ++ dirTail fpath.data = wd.data ++ dirTail fpath.data :=
    congrArg String.data heq
  exact String.ext (List.append_cancel_right hdd)

theorem dirname_absolute (cur wd fpath : String) (h : startsWith_slash fpath = true) :
    os_path_dirname (created_target cur fpath) =
      os_path_dirname (written_file_abs wd fpath) := by
  have hfh : startsWith_slash (fpath ++ ".html") = true := startsWith_slash_append_true h
  rw [created_target, written_file_abs]
  unfold os_path_join
  rw [if_pos h, if_pos hfh]
  have hdata : (fpath ++ ".html") = String.mk (fpath.data ++ ".html".data) :=
    String.ext (String.data_append _ _)
  rw [hdata, dirname_append_no_slash fpath (".html".data) (by decide)]

/-! ### Theorems for claim C10 -/

/-- C10 counterexample: the filter-stripped path can be absolute (take
path `"//m/f.c"` and filter `"m"`: the replaced string `"///f.c"` starts
with `'/'`, so the code sets `fpath = path[1:] = "/m/f.c"`).  Then the
directory whose creation the materializer requests and the directory of
the written HTML file coincide — `"/m"` — even though the script
directory `"/sd"` and the working directory `"/wd"` differ, refuting
"coincide only when the script directory equals the working directory". -/
theorem C10_counterexample :
    rewrite_fpath "//m/f.c" "m" = "/m/f.c" ∧
    os_path_dirname (created_target "/sd" "/m/f.c") = "/m" ∧
    os_path_dirname (written_file_abs "/wd" "/m/f.c") = "/m" ∧
    ("/sd" : String) ≠ "/wd" :=
  ⟨by decide, by decide, by decide, by decide⟩

/-- C10 amended: the created target path is never the written file's path
(for any directories and rewritten path); for canonical directories (non
empty, no trailing separator) and a *relative* rewritten path, the created
directory equals the written file's directory only when the script
directory equals the working directory; but for an *absolute* rewritten
path the two directories coincide for all script and working
directories. -/
theorem C10_created_vs_written (cur wd fpath : String) :
    created_target cur fpath ≠ written_file_abs wd fpath ∧
    (cur ≠ "" → wd ≠ "" → endsWith_slash cur = false → endsWith_slash wd = false →
      startsWith_slash fpath = false →
      os_path_dirname (created_target cur fpath) =
        os_path_dirname (written_file_abs wd fpath) →
      cur = wd) ∧
    (startsWith_slash fpath = true →
      os_path_dirname (created_target cur fpath) =
        os_path_dirname (written_file_abs wd fpath)) :=
  ⟨created_ne_written cur wd fpath,
   fun h1 h2 h3 h4 h5 heq => dirname_necessity cur wd fpath h1 h2 h3 h4 h5 heq,
   fun h => dirname_absolute cur wd fpath h⟩

/-- Witness for C10's amended theorem at concrete inputs. -/
theorem C10_created_vs_written_witness :
    created_target "/a" "g/h" ≠ written_file_abs "/a" "g/h" ∧
    ("/a" : String) = "/a" ∧
    os_path_dirname (created_target "/a" "/m/f.c") =
      os_path_dirname (written_file_abs "/b" "/m/f.c") :=
  ⟨(C10_created_vs_written "/a" "/a" "g/h").1,
   (C10_created_vs_written "/a" "/a" "g/h").2.1 (by decide) (by decide) (by decide)
     (by decide) (by decide) (by decide),
   (C10_created_vs_written "/a" "/b" "/m/f.c").2.2 (by decide)⟩

end LcovSpec
